import Mathlib

set_option maxRecDepth 10000

/-!
Shallow embedding of the uKids scheduler (`ukids_scheduler_app.py`).

The embedding covers the core of the program: the slot catalog
(`build_slot_plan`, `expand_roles_to_slots`), the eligibility and
availability indices (`build_long_df`, `build_eligibility`,
`parse_availability`), the header/date parsing with its input-shape
errors (`parse_month_and_dates_from_headers`, `is_priority_col`),
the assignment engine (`schedule_by_slots`), and the run pipeline that
strings them together in source order (`runPipeline`).

Modelling conventions:
* pandas DataFrames become explicit lists: the positions table is a
  list of row names plus columns of already-parsed numeric cells
  (`Option Int`, `none` standing for a cell `pd.to_numeric` coerces to
  NaN); the responses table is a list of rows, each a name plus an
  association list column-heading -> free-text answer.
* Python dicts become association lists with dict update semantics
  (`dictSetB`: replace in place, else append), preserving insertion
  order; `defaultdict(int)` counters become `counterInc`.
* Timestamps become naturals `year*10000 + month*100 + day`
  (`mkDate`), which orders dates of a single run exactly as the
  source's normalized Timestamps do (a run holds a single month).
* all string work (lower, strip, startswith, substring search, the
  `normalize` regex) is implemented over `String.data` character
  lists so that every definition evaluates by kernel reduction.
* `st.error` + `st.stop` and the two `ValueError`s become an
  `Except AppError` result; the sheet-name/rendering outputs of
  `parse_month_and_dates_from_headers` are peripheral I/O and are not
  modelled.
-/

namespace UKids

/-- `str.lower()` restricted to the ASCII range used by the inputs. -/
def lowerStr (s : String) : String :=
  String.mk (s.data.map Char.toLower)

/-- `str.strip()`: drop leading and trailing whitespace. -/
def strTrim (s : String) : String :=
  String.mk (((s.data.dropWhile Char.isWhitespace).reverse.dropWhile Char.isWhitespace).reverse)

/-- `str.startswith(pre)`. -/
def strStarts (s pre : String) : Bool :=
  pre.data.isPrefixOf s.data

/-- Python `needle in hay` substring test. -/
def strHas (hay needle : String) : Bool :=
  hay.data.tails.any (fun t => needle.data.isPrefixOf t)

/-- `not s` on a Python string: true iff empty. -/
def strEmpty (s : String) : Bool :=
  s.data.isEmpty

/-- Python `<` on strings: lexicographic by code point. -/
def charListLt : List Char → List Char → Bool
  | [], [] => false
  | [], _ :: _ => true
  | _ :: _, [] => false
  | a :: as, b :: bs => if a < b then true else if b < a then false else charListLt as bs

def strLtB (a b : String) : Bool :=
  charListLt a.data b.data

def insertStr (x : String) : List String → List String
  | [] => [x]
  | y :: ys => if strLtB y x then y :: insertStr x ys else x :: y :: ys

/-- `sorted(...)` on strings (ascending, deterministic). -/
def sortStr (l : List String) : List String :=
  l.foldr insertStr []

def insertNat (x : Nat) : List Nat → List Nat
  | [] => [x]
  | y :: ys => if y < x then y :: insertNat x ys else x :: y :: ys

/-- `sorted(...)` on naturals (ascending). -/
def sortNat (l : List Nat) : List Nat :=
  l.foldr insertNat []

def dedupAux {α : Type} [BEq α] (seen : List α) : List α → List α
  | [] => []
  | x :: xs => if seen.contains x then dedupAux seen xs else x :: dedupAux (x :: seen) xs

/-- `set(...)` as a first-occurrence duplicate-free list. -/
def dedupL {α : Type} [BEq α] (l : List α) : List α :=
  dedupAux [] l

/-- Dict update: replace the value of the (first) existing key in
    place, else append — insertion-order dict semantics. -/
def dictSetNat {β : Type} : List (Nat × β) → Nat → β → List (Nat × β)
  | [], k, v => [(k, v)]
  | kv :: rest, k, v => if kv.1 == k then (k, v) :: rest else kv :: dictSetNat rest k v

/-- `Counter` / `defaultdict(int)` increment (`counts[nm] += 1`). -/
def counterInc : List (String × Nat) → String → List (String × Nat)
  | [], k => [(k, 1)]
  | kv :: rest, k => if kv.1 == k then (kv.1, kv.2 + 1) :: rest else kv :: counterInc rest k

/-- After lowering, the character class `[a-z0-9]` of the `normalize` regex. -/
def isAlnumLower (c : Char) : Bool :=
  c.isDigit || ('a' ≤ c && c ≤ 'z')

/-- Maximal runs of characters satisfying `p`, in order. -/
def runsAux (p : Char → Bool) (cur : List Char) : List Char → List (List Char)
  | [] => if cur.isEmpty then [] else [cur.reverse]
  | c :: cs =>
    if p c then runsAux p (c :: cur) cs
    else if cur.isEmpty then runsAux p [] cs
    else cur.reverse :: runsAux p [] cs

/-- `normalize`: lower-case, collapse non-alphanumeric runs to single
    spaces, strip — implemented as: split into `[a-z0-9]` runs and
    rejoin with single spaces, which is extensionally the source's
    `re.sub(r"[^a-z0-9]+", " ", s.lower()).strip()`. -/
def normalize (s : String) : String :=
  String.mk (List.intercalate [' '] (runsAux isAlnumLower [] (s.data.map Char.toLower)))

/-- `MONTH_ALIASES` in dict insertion order. -/
def monthAliases : List (String × Nat) :=
  [("jan", 1), ("january", 1), ("feb", 2), ("february", 2), ("mar", 3), ("march", 3),
   ("apr", 4), ("april", 4), ("may", 5), ("jun", 6), ("june", 6), ("jul", 7), ("july", 7),
   ("aug", 8), ("august", 8), ("sep", 9), ("sept", 9), ("september", 9), ("oct", 10),
   ("october", 10), ("nov", 11), ("november", 11), ("dec", 12), ("december", 12)]

/-- `YES_SET`. -/
def yesSet : List String :=
  ["yes", "y", "true", "available"]

/-- First month alias contained in the (lowered) header, dict order. -/
def findMonth (low : String) : Option Nat :=
  (monthAliases.find? (fun a => strHas low a.1)).map (fun a => a.2)

def digitsVal (l : List Char) : Nat :=
  l.foldl (fun acc c => acc * 10 + (c.toNat - 48)) 0

/-- `re.search(r"\b(\d{1,2})\b", low)`: the first maximal digit run of
    length at most 2 (a longer run has no word boundary inside it). -/
def firstDay (low : String) : Option Nat :=
  ((runsAux Char.isDigit [] low.data).find? (fun r => r.length ≤ 2)).map digitsVal

/-- A `pd.Timestamp` of one run, ordered like the source's normalized dates. -/
def mkDate (y m d : Nat) : Nat :=
  y * 10000 + m * 100 + d

/-- The input-shape failures the run can abort with (each a distinct
    `ValueError` / `st.error` in the source). -/
inductive AppError where
  | noAvailabilityColumns : AppError
  | noParseableDates : AppError
  | multipleMonths : List Nat → AppError
  | noRoleColumns : AppError
  | noEligible : AppError
deriving DecidableEq, Repr

def joinComma : List String → String
  | [] => ""
  | [x] => x
  | x :: xs => x ++ ", " ++ joinComma xs

/-- The source's error message for each failure (surrounding quotes of
    the example heading omitted). -/
def errMessage : AppError → String
  | AppError.noAvailabilityColumns =>
      "No availability columns found. Expect headings like: Are you available 7 September?"
  | AppError.noParseableDates =>
      "Could not parse day/month from availability headers."
  | AppError.multipleMonths ms =>
      "Multiple months detected in availability headers: [" ++ joinComma (ms.map toString)
        ++ "]. Upload one month at a time."
  | AppError.noRoleColumns =>
      "No role columns with priorities (0..5) detected in the positions CSV."
  | AppError.noEligible =>
      "No eligible assignments found (all priorities are 0 or missing)."

/-- `parse_month_and_dates_from_headers`: availability-column detection,
    day/month extraction, single-month check.  The year (taken from the
    `Timestamp` column or today's date in the source) is a parameter.
    Returns the column -> date map and the sorted distinct service dates. -/
def parse_month_and_dates_from_headers (headers : List String) (year : Nat) :
    Except AppError (List (String × Nat) × List Nat) :=
  let primary := headers.filter (fun c => strStarts (lowerStr (strTrim c)) ("are you available"))
  let availCols :=
    if primary.isEmpty then
      headers.filter (fun c => (firstDay (lowerStr c)).isSome && (findMonth (lowerStr c)).isSome)
    else primary
  if availCols.isEmpty then Except.error AppError.noAvailabilityColumns else
  let info := availCols.filterMap (fun c =>
    match findMonth (lowerStr c), firstDay (lowerStr c) with
    | some m, some d => some (c, m, d)
    | _, _ => none)
  if info.isEmpty then Except.error AppError.noParseableDates else
  let months := dedupL (info.map (fun t => t.2.1))
  if 1 < months.length then Except.error (AppError.multipleMonths (sortNat months)) else
  let month := months.headD 0
  let dmap := info.map (fun t => (t.1, mkDate year month t.2.2))
  Except.ok (dmap, sortNat (dedupL (dmap.map (fun kv => kv.2))))

/-- The availability index: person -> (date -> available), as built row by row. -/
abbrev Avail := List (String × List (Nat × Bool))

/-- `row.get(col, "")`. -/
def rowGet (cells : List (String × String)) (col : String) : String :=
  ((cells.find? (fun kv => kv.1 == col)).map (fun kv => kv.2)).getD ("")

/-- `availability.setdefault(nm, {})`. -/
def setdefaultRow : Avail → String → Avail
  | [], nm => [(nm, [])]
  | kv :: rest, nm => if kv.1 == nm then kv :: rest else kv :: setdefaultRow rest nm

/-- `availability[nm][dt] = is_yes` (nm is present after `setdefault`). -/
def setAvail (av : Avail) (nm : String) (d : Nat) (b : Bool) : Avail :=
  av.map (fun kv => if kv.1 == nm then (kv.1, dictSetNat kv.2 d b) else kv)

/-- The inner `for col, dt in date_map.items()` loop of one response row. -/
def paCols (dmap : List (String × Nat)) (cells : List (String × String)) (nm : String)
    (acc : Avail × List (String × Nat)) : Avail × List (String × Nat) :=
  dmap.foldl (fun ac cd =>
    let ans := lowerStr (strTrim (rowGet cells cd.1))
    let isYes := yesSet.contains ans
    (setAvail ac.1 nm cd.2 isYes, if isYes then counterInc ac.2 nm else ac.2)) acc

/-- `parse_availability`: builds the availability index, the sorted
    distinct service dates, and the informational `few_yes` roster of
    people whose yes-count is below 2. -/
def parse_availability (rows : List (String × List (String × String)))
    (dmap : List (String × Nat)) : Avail × List Nat × List String :=
  let st := rows.foldl (fun acc row =>
    let nm := strTrim row.1
    if strEmpty nm || lowerStr nm == ("nan") then acc
    else paCols dmap row.2 nm (setdefaultRow acc.1 nm, acc.2))
    (([], []) : Avail × List (String × Nat))
  let fewYes := sortStr ((st.2.filter (fun kv => kv.2 < 2)).map (fun kv => kv.1))
  (st.1, sortNat (dedupL (dmap.map (fun kv => kv.2))), fewYes)

/-- One row of the long eligibility table (`long_df`). -/
structure Rec where
  person : String
  role : String
  priority : Int
deriving DecidableEq, Repr

/-- `is_priority_col`: the coerced numeric values are non-empty and all in `[0, 5]`. -/
def is_priority_col (cells : List (Option Int)) : Bool :=
  let vals := cells.filterMap id
  !vals.isEmpty && vals.all (fun v => decide (0 ≤ v) && decide (v ≤ 5))

/-- `build_long_df`: one record per (person, role) cell with priority ≥ 1;
    rows outer, role columns inner, blank/"nan" names skipped. -/
def build_long_df (names : List String) (roleCols : List (String × List (Option Int))) :
    List Rec :=
  (List.range names.length).flatMap (fun i =>
    let person := strTrim (names.getD i (""))
    if strEmpty person || lowerStr person == ("nan") then []
    else roleCols.filterMap (fun rc =>
      match rc.2.getD i none with
      | some pr => if 1 ≤ pr then some ⟨person, rc.1, pr⟩ else none
      | none => none))

/-- `build_slot_plan`: the fixed role -> slot-count configuration, in
    declaration order. -/
def build_slot_plan : List (String × Nat) :=
  [("Age 1 leader", 1), ("Age 1 classroom", 5), ("Age 1 nappies", 1),
   ("Age 1 bags girls", 1), ("Age 1 bags boys", 1),
   ("Age 2 leader", 1), ("Age 2 classroom", 4), ("Age 2 nappies", 1),
   ("Age 2 bags girls", 1), ("Age 2 bags boys", 1),
   ("Age 3 leader", 1), ("Age 3 classroom", 4), ("Age 3 bags", 1),
   ("Age 4 leader", 1), ("Age 4 classroom", 4),
   ("Age 5 leader", 1), ("Age 5 classroom", 3),
   ("Age 6 leader", 1), ("Age 6 classroom", 3),
   ("Age 7 leader", 1), ("Age 7 classroom", 2),
   ("Age 8 leader", 1), ("Age 8 classroom", 2),
   ("Age 9 leader", 1), ("Age 9 classroom A", 1), ("Age 9 classroom B", 1),
   ("Age 10 leader", 1), ("Age 10 classroom", 1),
   ("Age 11 leader", 1), ("Age 11 classroom", 1),
   ("Special needs leader", 1), ("Special needs classroom", 2)]

/-- `expand_roles_to_slots`: the appending loop over the plan; each
    element of the result is a (slot label, underlying role) pair,
    combining the source's `slot_rows` list and `slot_index` dict. -/
def expand_roles_to_slots (plan : List (String × Nat)) : List (String × String) :=
  plan.foldl (fun acc rn =>
    if rn.2 ≤ 0 then acc
    else if rn.2 = 1 then acc ++ [(rn.1, rn.1)]
    else acc ++ (List.range rn.2).map (fun i => (rn.1 ++ (" #") ++ toString (i + 1), rn.1))) []

/-- `build_eligibility` role set of one person: roles of that person's
    `long_df` records (trimmed, as in the source). -/
def eligRoles (long_df : List Rec) (p : String) : List String :=
  (long_df.filter (fun r => strTrim r.person == p)).map (fun r => strTrim r.role)

/-- `set(eligibility.keys())` in first-occurrence order. -/
def eligKeys (long_df : List Rec) : List String :=
  dedupL (long_df.map (fun r => strTrim r.person))

/-- `set(availability.keys())`. -/
def availKeys (avail : Avail) : List String :=
  avail.map (fun kv => kv.1)

/-- `availability.get(p, {}).get(d, False)`. -/
def availOf (avail : Avail) (p : String) (d : Nat) : Bool :=
  match avail.find? (fun kv => kv.1 == p) with
  | some kv =>
    match kv.2.find? (fun db => db.1 == d) with
    | some db => db.2
    | none => false
  | none => false

/-- The eligibility test of the candidate loop: exact role-set
    membership first, then normalized-name match. -/
def eligOk (long_df : List Rec) (p : String) (baseRole : String) : Bool :=
  let ers := eligRoles long_df p
  ers.contains baseRole || ers.any (fun er => normalize er == normalize baseRole)

/-- The candidate filter for one (date, slot): under quota, not yet
    assigned today, available today, eligible for the base role —
    in the source's check order. -/
def candidates (long_df : List Rec) (avail : Avail) (cnt : String → Nat) (maxA : Nat)
    (today : List String) (people : List String) (baseRole : String) (d : Nat) : List String :=
  people.filter (fun p =>
    decide (cnt p < maxA) && !(today.contains p) && availOf avail p d && eligOk long_df p baseRole)

/-- `cands.sort(key=assign_count)` (stable) followed by `cands[0]`:
    the first candidate with minimal running count. -/
def chooseMin (cnt : String → Nat) (c : String) (rest : List String) : String :=
  rest.foldl (fun best p => if cnt p < cnt best then p else best) c

/-- One filled cell of the output grid. -/
structure Assign where
  slot : String
  date : Nat
  person : String
deriving DecidableEq, Repr

/-- `assign_count[p]` of the `defaultdict(int)` counter. -/
def cntOf (cnt : List (String × Nat)) (p : String) : Nat :=
  ((cnt.find? (fun kv => kv.1 == p)).map (fun kv => kv.2)).getD 0

/-- The engine's running state: the filled cells in fill order (the
    grid) and the running per-person assignment counter
    (`assign_count`, a `defaultdict(int)` in the source). -/
structure SchedState where
  assignments : List Assign
  cnt : List (String × Nat)
deriving DecidableEq, Repr

/-- The body of the inner slot loop: fill the slot with the chosen
    candidate (or leave it empty), update count and today's set. -/
def slotStep (long_df : List Rec) (avail : Avail) (people : List String) (maxA : Nat) (d : Nat)
    (acc : SchedState × List String) (sl : String × String) : SchedState × List String :=
  match candidates long_df avail (cntOf acc.1.cnt) maxA acc.2 people sl.2 d with
  | [] => acc
  | c :: rest =>
    let chosen := chooseMin (cntOf acc.1.cnt) c rest
    (⟨acc.1.assignments ++ [⟨sl.1, d, chosen⟩], counterInc acc.1.cnt chosen⟩,
     acc.2 ++ [chosen])

/-- One service date: run the slot loop with a fresh `assigned_today`. -/
def dayStep (long_df : List Rec) (avail : Avail) (people : List String) (maxA : Nat)
    (slots : List (String × String)) (st : SchedState) (d : Nat) : SchedState :=
  (slots.foldl (slotStep long_df avail people maxA d) (st, [])).1

/-- `schedule_by_slots`: the assignment engine.  Returns the filled
    cells of the grid (in fill order) and the final per-person counter
    (`dict(assign_count)`; the zero entries a `defaultdict` acquires
    when merely read are not materialized — `cntOf` defaults missing
    keys to 0, so the counts function is unchanged). -/
def schedule_by_slots (long_df : List Rec) (avail : Avail) (service_dates : List Nat)
    (maxA : Nat) : List Assign × List (String × Nat) :=
  let slots := expand_roles_to_slots build_slot_plan
  let people := sortStr ((eligKeys long_df).filter (fun p => (availKeys avail).contains p))
  let fin := service_dates.foldl (dayStep long_df avail people maxA slots) ⟨[], []⟩
  (fin.assignments, fin.cnt)

/-- The generate-schedule pipeline in source order: role-column check,
    eligibility build, date parsing, availability parsing, scheduling
    with `max_assignments_per_person=2`.  An input-shape failure aborts
    before scheduling; otherwise the grid and the informational
    `few_yes` roster are produced. -/
def runPipeline (names : List String) (cols : List (String × List (Option Int)))
    (respHeaders : List String) (respRows : List (String × List (String × String)))
    (year : Nat) : Except AppError (List Assign × List String) :=
  let role_cols := cols.filter (fun c => is_priority_col c.2)
  if role_cols.isEmpty then Except.error AppError.noRoleColumns else
  let long_df := build_long_df names role_cols
  if long_df.isEmpty then Except.error AppError.noEligible else
  match parse_month_and_dates_from_headers respHeaders year with
  | Except.error e => Except.error e
  | Except.ok (dmap, _) =>
    let pa := parse_availability respRows dmap
    let res := schedule_by_slots long_df pa.1 pa.2.1 2
    Except.ok (res.1, pa.2.2)

/-- Number of filled cells naming person `p` — the grid total the
    source's `assign_count` tracks incrementally. -/
def countPerson (l : List Assign) (p : String) : Nat :=
  (l.filter (fun a => a.person == p)).length

deriving instance DecidableEq for Except

/-! ### Concrete inputs used by the closed instance theorems -/

/-- One volunteer, eligible for the Age 1 classroom role, available on
    three service dates. -/
def annLong : List Rec :=
  [⟨("Ann"), ("Age 1 classroom"), 1⟩]

def annAvail : Avail :=
  [(("Ann"), [(1, true), (2, true), (3, true)])]

/-- Two volunteers for the low-availability scenario: Zoe answers yes
    on one of three dates, Ben on all three. -/
def zbLong : List Rec :=
  [⟨("Zoe"), ("Age 1 classroom"), 1⟩, ⟨("Ben"), ("Age 1 classroom"), 2⟩]

def zbRows : List (String × List (String × String)) :=
  [(("Zoe"), [(("d1"), ("")), (("d2"), ("Yes")), (("d3"), ("no"))]),
   (("Ben"), [(("d1"), ("yes")), (("d2"), ("YES ")), (("d3"), ("y"))])]

def zbDmap : List (String × Nat) :=
  [(("d1"), 1), (("d2"), 2), (("d3"), 3)]

/-- The availability index `parse_availability` builds from `zbRows`. -/
def zbAvailI : Avail :=
  [(("Zoe"), [(1, false), (2, true), (3, false)]),
   (("Ben"), [(1, true), (2, true), (3, true)])]

/-- Concrete pipeline inputs for the error-handling claims. -/
def posNames : List String :=
  [("Ann")]

def posColsGood : List (String × List (Option Int)) :=
  [(("Age 1 classroom"), [some 1])]

def posColsBad : List (String × List (Option Int)) :=
  [(("Comments"), [some 9])]

def hdrGood : List String :=
  [("Are you available 7 September?")]

def hdrNoDates : List String :=
  [("Are you available sometime soon?")]

def hdrTwoMonths : List String :=
  [("Are you available 7 September?"), ("Are you available 5 October?")]

def rowsGood : List (String × List (String × String)) :=
  [(("Ann"), [(("Are you available 7 September?"), ("Yes"))])]

/-! ### Basic lemmas about the counter, `countPerson` and `chooseMin` -/

theorem cntOf_counterInc (l : List (String × Nat)) (k q : String) :
    cntOf (counterInc l k) q = if q = k then cntOf l q + 1 else cntOf l q := by
  induction l with
  | nil =>
    by_cases h : q = k
    · subst h; simp [counterInc, cntOf, List.find?_cons]
    · have hkq : (k == q) = false := by simp; exact fun hh => h hh.symm
      simp [counterInc, cntOf, List.find?_cons, hkq, h]
  | cons kv rest ih =>
    by_cases hk : kv.1 = k
    · have hb : (kv.1 == k) = true := by simp [hk]
      by_cases hq : q = k
      · subst hq
        have hbq : (kv.1 == q) = true := by simp [hk]
        simp [counterInc, cntOf, List.find?_cons, hb, hbq]
      · have hbq : (kv.1 == q) = false := by simp [hk]; exact fun hh => hq (hh ▸ hk ▸ rfl)
        simp [counterInc, cntOf, List.find?_cons, hb, hbq, hq]
    · have hb : (kv.1 == k) = false := by simp [hk]
      by_cases hq1 : kv.1 = q
      · have hqk : ¬q = k := fun h => hk (hq1.trans h)
        have hbq : (kv.1 == q) = true := by simp [hq1]
        simp [counterInc, cntOf, List.find?_cons, hb, hbq, hqk]
      · have hbq : (kv.1 == q) = false := by simp [hq1]
        simp only [counterInc, hb, Bool.false_eq_true, if_false, cntOf,
          List.find?_cons, hbq] at ih ⊢
        exact ih

theorem countPerson_nil (p : String) : countPerson [] p = 0 := rfl

theorem countPerson_cons (a : Assign) (l : List Assign) (p : String) :
    countPerson (a :: l) p = (if a.person = p then 1 else 0) + countPerson l p := by
  by_cases h : a.person = p
  · have hb : (a.person == p) = true := by simp [h]
    simp [countPerson, List.filter, hb, h, Nat.add_comm]
  · have hb : (a.person == p) = false := by simp [h]
    simp [countPerson, List.filter, hb, h]

theorem countPerson_append (l₁ l₂ : List Assign) (p : String) :
    countPerson (l₁ ++ l₂) p = countPerson l₁ p + countPerson l₂ p := by
  simp [countPerson, List.filter_append]

theorem countPerson_le_one_of_nodup (l : List Assign) (p : String)
    (h : (l.map Assign.person).Nodup) : countPerson l p ≤ 1 := by
  induction l with
  | nil => simp [countPerson_nil]
  | cons a t ih =>
    simp only [List.map_cons, List.nodup_cons] at h
    rw [countPerson_cons]
    by_cases hp : a.person = p
    · have : countPerson t p = 0 := by
        simp only [countPerson, List.length_eq_zero]
        apply List.filter_eq_nil_iff.mpr
        intro b hb hbp
        exact h.1 (hp ▸ (eq_of_beq hbp) ▸ List.mem_map_of_mem Assign.person hb)
      simp [hp, this]
    · simpa [hp] using ih h.2

theorem countPerson_eq_zero_of_not_mem (l : List Assign) (p : String)
    (h : ∀ a ∈ l, a.person ≠ p) : countPerson l p = 0 := by
  simp only [countPerson, List.length_eq_zero]
  apply List.filter_eq_nil_iff.mpr
  intro a ha hbp
  exact h a ha (eq_of_beq hbp)

theorem chooseMin_cons (cnt : String → Nat) (c p : String) (rs : List String) :
    chooseMin cnt c (p :: rs) = chooseMin cnt (if cnt p < cnt c then p else c) rs := rfl

theorem chooseMin_mem (cnt : String → Nat) :
    ∀ (rest : List String) (c : String), chooseMin cnt c rest ∈ c :: rest := by
  intro rest
  induction rest with
  | nil => intro c; simp [chooseMin]
  | cons p rs ih =>
    intro c
    rw [chooseMin_cons]
    have h := ih (if cnt p < cnt c then p else c)
    rcases List.mem_cons.mp h with h | h
    · by_cases hpc : cnt p < cnt c
      · rw [if_pos hpc] at h ⊢
        rw [h]
        exact List.mem_cons_of_mem _ (List.mem_cons_self _ _)
      · rw [if_neg hpc] at h ⊢
        rw [h]
        exact List.mem_cons_self _ _
    · exact List.mem_cons_of_mem _ (List.mem_cons_of_mem _ h)

theorem chooseMin_le (cnt : String → Nat) :
    ∀ (rest : List String) (c : String), ∀ y ∈ c :: rest,
      cnt (chooseMin cnt c rest) ≤ cnt y := by
  intro rest
  induction rest with
  | nil =>
    intro c y hy
    simp at hy
    simp [chooseMin, hy]
  | cons p rs ih =>
    intro c y hy
    rw [chooseMin_cons]
    have hle : cnt (if cnt p < cnt c then p else c) ≤ cnt c ∧
        cnt (if cnt p < cnt c then p else c) ≤ cnt p := by
      by_cases hpc : cnt p < cnt c
      · rw [if_pos hpc]
        exact ⟨Nat.le_of_lt hpc, Nat.le_refl _⟩
      · rw [if_neg hpc]
        exact ⟨Nat.le_refl _, Nat.le_of_not_lt hpc⟩
    have hmin := ih (if cnt p < cnt c then p else c)
    have hhead : cnt (chooseMin cnt (if cnt p < cnt c then p else c) rs)
        ≤ cnt (if cnt p < cnt c then p else c) :=
      hmin _ (List.mem_cons_self _ _)
    rcases List.mem_cons.mp hy with hyc | hy
    · rw [hyc]
      exact le_trans hhead hle.1
    · rcases List.mem_cons.mp hy with hyp | hy
      · rw [hyp]
        exact le_trans hhead hle.2
      · exact hmin y (List.mem_cons_of_mem _ hy)

theorem chooseMin_first (cnt : String → Nat) :
    ∀ (rest : List String) (c : String),
      (c :: rest).find? (fun y => cnt y == cnt (chooseMin cnt c rest))
        = some (chooseMin cnt c rest) := by
  intro rest
  induction rest with
  | nil => simp [chooseMin, List.find?]
  | cons p rs ih =>
    intro c
    rw [chooseMin_cons]
    by_cases hpc : cnt p < cnt c
    · have hkey := ih p
      simp only [if_pos hpc]
      have hm : cnt (chooseMin cnt p rs) ≤ cnt p :=
        chooseMin_le cnt rs p _ (List.mem_cons_self _ _)
      have hc : (cnt c == cnt (chooseMin cnt p rs)) = false := by
        simp only [beq_eq_false_iff_ne, ne_eq]
        omega
      rw [List.find?_cons]
      simp only [hc, cond_false]
      exact hkey
    · have hkey := ih c
      simp only [if_neg hpc]
      rw [List.find?_cons] at hkey ⊢
      by_cases hc : cnt c = cnt (chooseMin cnt c rs)
      · have : (cnt c == cnt (chooseMin cnt c rs)) = true := by simp [hc]
        rw [this] at hkey
        simp only [cond_true] at hkey
        rw [this]
        simpa using hkey
      · have hcb : (cnt c == cnt (chooseMin cnt c rs)) = false := by simp [hc]
        rw [hcb] at hkey
        simp only [cond_false] at hkey
        rw [hcb]
        simp only [cond_false]
        rw [List.find?_cons]
        have hmle : cnt (chooseMin cnt c rs) ≤ cnt c :=
          chooseMin_le cnt rs c _ (List.mem_cons_self _ _)
        have hp : (cnt p == cnt (chooseMin cnt c rs)) = false := by
          simp only [beq_eq_false_iff_ne, ne_eq]
          omega
        rw [hp]
        simp only [cond_false]
        exact hkey

theorem mem_candidates {long_df : List Rec} {avail : Avail} {cnt : String → Nat} {maxA : Nat}
    {today people : List String} {br : String} {d : Nat} {p : String}
    (h : p ∈ candidates long_df avail cnt maxA today people br d) :
    p ∈ people ∧ cnt p < maxA ∧ p ∉ today ∧ availOf avail p d = true
      ∧ eligOk long_df p br = true := by
  unfold candidates at h
  rw [List.mem_filter] at h
  obtain ⟨hp, hb⟩ := h
  simp only [Bool.and_eq_true, decide_eq_true_eq, Bool.not_eq_true'] at hb
  refine ⟨hp, hb.1.1.1, ?_, hb.1.2, hb.2⟩
  have hcont := hb.1.1.2
  simp at hcont
  exact hcont

/-! ### The per-day slot loop invariant -/

theorem slotStep_of_nil {long_df : List Rec} {avail : Avail} {people : List String}
    {maxA d : Nat} {acc : SchedState × List String} {sl : String × String}
    (h : candidates long_df avail (cntOf acc.1.cnt) maxA acc.2 people sl.2 d = []) :
    slotStep long_df avail people maxA d acc sl = acc := by
  unfold slotStep
  rw [h]

theorem slotStep_of_cons {long_df : List Rec} {avail : Avail} {people : List String}
    {maxA d : Nat} {acc : SchedState × List String} {sl : String × String}
    {c : String} {rest : List String}
    (h : candidates long_df avail (cntOf acc.1.cnt) maxA acc.2 people sl.2 d = c :: rest) :
    slotStep long_df avail people maxA d acc sl
      = (⟨acc.1.assignments ++ [⟨sl.1, d, chooseMin (cntOf acc.1.cnt) c rest⟩],
          counterInc acc.1.cnt (chooseMin (cntOf acc.1.cnt) c rest)⟩,
         acc.2 ++ [chooseMin (cntOf acc.1.cnt) c rest]) := by
  unfold slotStep
  rw [h]

theorem slots_foldl_spec (long_df : List Rec) (avail : Avail) (people : List String)
    (maxA : Nat) (d : Nat) :
    ∀ (slots : List (String × String)) (acc : SchedState × List String),
      ∃ delta : List Assign,
        (List.foldl (slotStep long_df avail people maxA d) acc slots).1.assignments
            = acc.1.assignments ++ delta
        ∧ (List.foldl (slotStep long_df avail people maxA d) acc slots).2
            = acc.2 ++ delta.map Assign.person
        ∧ (∀ a ∈ delta, a.date = d ∧ a.person ∈ people
            ∧ availOf avail a.person d = true
            ∧ ∃ br, (a.slot, br) ∈ slots ∧ eligOk long_df a.person br = true)
        ∧ (∀ p, cntOf (List.foldl (slotStep long_df avail people maxA d) acc slots).1.cnt p
            = cntOf acc.1.cnt p + countPerson delta p)
        ∧ (∀ p, cntOf (List.foldl (slotStep long_df avail people maxA d) acc slots).1.cnt p
            ≤ Nat.max (cntOf acc.1.cnt p) maxA)
        ∧ (∀ p ∈ delta.map Assign.person, p ∉ acc.2)
        ∧ (delta.map Assign.person).Nodup := by
  intro slots
  induction slots with
  | nil =>
    intro acc
    refine ⟨[], by simp, by simp, by simp, by simp [countPerson_nil], ?_, by simp, by simp⟩
    intro p
    exact Nat.le_max_left _ _
  | cons sl slots ih =>
    intro acc
    cases hc : candidates long_df avail (cntOf acc.1.cnt) maxA acc.2 people sl.2 d with
    | nil =>
      have hstep := slotStep_of_nil hc
      rcases ih acc with ⟨delta, h1, h2, h3, h4, h5, h6, h7⟩
      refine ⟨delta, ?_, ?_, ?_, ?_, ?_, h6, h7⟩
      · rw [List.foldl_cons, hstep]
        exact h1
      · rw [List.foldl_cons, hstep]
        exact h2
      · intro a ha
        obtain ⟨had, hap, hav, br, hbr, helg⟩ := h3 a ha
        exact ⟨had, hap, hav, br, List.mem_cons_of_mem _ hbr, helg⟩
      · intro p
        rw [List.foldl_cons, hstep]
        exact h4 p
      · intro p
        rw [List.foldl_cons, hstep]
        exact h5 p
    | cons c rest =>
      have hchmem : chooseMin (cntOf acc.1.cnt) c rest
          ∈ candidates long_df avail (cntOf acc.1.cnt) maxA acc.2 people sl.2 d := by
        rw [hc]
        exact chooseMin_mem (cntOf acc.1.cnt) rest c
      obtain ⟨hpeople, hqu, htoday, havl, helig⟩ := mem_candidates hchmem
      have hstep := slotStep_of_cons hc
      rcases ih (⟨acc.1.assignments ++ [⟨sl.1, d, chooseMin (cntOf acc.1.cnt) c rest⟩],
          counterInc acc.1.cnt (chooseMin (cntOf acc.1.cnt) c rest)⟩,
         acc.2 ++ [chooseMin (cntOf acc.1.cnt) c rest])
        with ⟨delta, h1, h2, h3, h4, h5, h6, h7⟩
      refine ⟨⟨sl.1, d, chooseMin (cntOf acc.1.cnt) c rest⟩ :: delta, ?_, ?_, ?_, ?_, ?_, ?_, ?_⟩
      · rw [List.foldl_cons, hstep, h1]
        simp
      · rw [List.foldl_cons, hstep, h2]
        simp
      · intro a ha
        rcases List.mem_cons.mp ha with haeq | ha
        · subst haeq
          exact ⟨rfl, hpeople, havl, sl.2, List.mem_cons_self _ _, helig⟩
        · obtain ⟨had, hap, hav, br, hbr, helg⟩ := h3 a ha
          exact ⟨had, hap, hav, br, List.mem_cons_of_mem _ hbr, helg⟩
      · intro p
        rw [List.foldl_cons, hstep, h4 p]
        dsimp only
        rw [cntOf_counterInc, countPerson_cons]
        dsimp only
        by_cases hpch : p = chooseMin (cntOf acc.1.cnt) c rest
        · rw [if_pos hpch, if_pos hpch.symm]
          omega
        · rw [if_neg hpch, if_neg (Ne.symm hpch)]
          omega
      · intro p
        rw [List.foldl_cons, hstep]
        refine le_trans (h5 p) ?_
        dsimp only
        rw [cntOf_counterInc]
        refine Nat.max_le.mpr ⟨?_, Nat.le_max_right _ _⟩
        by_cases hpch : p = chooseMin (cntOf acc.1.cnt) c rest
        · rw [if_pos hpch, hpch]
          exact le_trans (Nat.succ_le_of_lt hqu) (Nat.le_max_right _ _)
        · rw [if_neg hpch]
          exact Nat.le_max_left _ _
      · intro p hp
        rcases List.mem_cons.mp hp with hpe | hp
        · rw [hpe]
          exact htoday
        · have h6p := h6 p hp
          dsimp only at h6p
          intro hmem
          exact h6p (List.mem_append_left _ hmem)
      · rw [List.map_cons]
        rw [List.nodup_cons]
        constructor
        · intro hmem
          have h6c := h6 _ hmem
          dsimp only at h6c
          exact h6c (List.mem_append_right _ (List.mem_cons_self _ _))
        · exact h7

/-! ### The run-level (dates) loop invariant -/

theorem dates_foldl_spec (long_df : List Rec) (avail : Avail) (people : List String)
    (maxA : Nat) (slots : List (String × String)) :
    ∀ (dates : List Nat) (st0 : SchedState),
      ∃ delta : List Assign,
        (List.foldl (dayStep long_df avail people maxA slots) st0 dates).assignments
            = st0.assignments ++ delta
        ∧ (∀ a ∈ delta, a.date ∈ dates ∧ a.person ∈ people
            ∧ availOf avail a.person a.date = true
            ∧ ∃ br, (a.slot, br) ∈ slots ∧ eligOk long_df a.person br = true)
        ∧ (∀ p, cntOf (List.foldl (dayStep long_df avail people maxA slots) st0 dates).cnt p
            = cntOf st0.cnt p + countPerson delta p)
        ∧ (∀ p, cntOf (List.foldl (dayStep long_df avail people maxA slots) st0 dates).cnt p
            ≤ Nat.max (cntOf st0.cnt p) maxA)
        ∧ (dates.Nodup →
            ∀ d' p, countPerson (delta.filter (fun a => a.date == d')) p ≤ 1) := by
  intro dates
  induction dates with
  | nil =>
    intro st0
    refine ⟨[], by simp, by simp, by simp [countPerson_nil], ?_, ?_⟩
    · intro p
      exact Nat.le_max_left _ _
    · intro _ d' p
      simp [countPerson_nil]
  | cons d dates ih =>
    intro st0
    obtain ⟨dd, g1, g2, g3, g4, g5, g6, g7⟩ :=
      slots_foldl_spec long_df avail people maxA d slots ((st0, []) : SchedState × List String)
    dsimp only at g1 g2 g3 g4 g5 g6 g7
    have hday : dayStep long_df avail people maxA slots st0 d
        = (List.foldl (slotStep long_df avail people maxA d) (st0, []) slots).1 := rfl
    rcases ih (dayStep long_df avail people maxA slots st0 d) with ⟨dr, k1, k2, k3, k4, k5⟩
    refine ⟨dd ++ dr, ?_, ?_, ?_, ?_, ?_⟩
    · rw [List.foldl_cons, k1, hday, g1]
      simp [List.append_assoc]
    · intro a ha
      rcases List.mem_append.mp ha with ha | ha
      · obtain ⟨had, hap, hav, br, hbr, helg⟩ := g3 a ha
        exact ⟨had ▸ List.mem_cons_self _ _, hap, had ▸ hav, br, hbr, helg⟩
      · obtain ⟨had, hap, hav, br, hbr, helg⟩ := k2 a ha
        exact ⟨List.mem_cons_of_mem _ had, hap, hav, br, hbr, helg⟩
    · intro p
      rw [List.foldl_cons, k3 p, hday, g4 p, countPerson_append]
      omega
    · intro p
      rw [List.foldl_cons]
      refine le_trans (k4 p) ?_
      rw [hday]
      refine Nat.max_le.mpr ⟨le_trans (g5 p) ?_, Nat.le_max_right _ _⟩
      exact Nat.le_refl _
    · intro hnd d' p
      have hdnot : d ∉ dates := (List.nodup_cons.mp hnd).1
      have hndr : dates.Nodup := (List.nodup_cons.mp hnd).2
      rw [List.filter_append, countPerson_append]
      by_cases hdd : d' = d
      · have hzr : dr.filter (fun a => a.date == d') = [] := by
          apply List.filter_eq_nil_iff.mpr
          intro a ha
          have had := (k2 a ha).1
          simp only [beq_iff_eq]
          intro haeq
          exact hdnot ((haeq.trans hdd) ▸ had)
        have hnodup : ((dd.filter (fun a => a.date == d')).map Assign.person).Nodup :=
          ((List.filter_sublist _).map Assign.person).nodup g7
        rw [hzr]
        have hle := countPerson_le_one_of_nodup _ p hnodup
        simpa [countPerson_nil] using hle
      · have hzd : dd.filter (fun a => a.date == d') = [] := by
          apply List.filter_eq_nil_iff.mpr
          intro a ha
          have had := (g3 a ha).1
          simp only [beq_iff_eq]
          intro haeq
          exact hdd (haeq.symm.trans had)
        rw [hzd]
        have hle := k5 hndr d' p
        simpa [countPerson_nil] using hle

/-! ### Helper lemmas for the claim theorems -/

theorem filter_person_and_date (l : List Assign) (p : String) (d : Nat) :
    l.filter (fun a => a.person == p && a.date == d)
      = (l.filter (fun a => a.date == d)).filter (fun a => a.person == p) := by
  induction l with
  | nil => rfl
  | cons a t ih =>
    by_cases hd : a.date = d
    · have hdb : (a.date == d) = true := by simp [hd]
      by_cases hp : a.person = p
      · have hpb : (a.person == p) = true := by simp [hp]
        simp only [List.filter_cons, hdb, hpb, Bool.and_self, if_true, Bool.true_and]
        rw [ih]
      · have hpb : (a.person == p) = false := by simp [hp]
        simp only [List.filter_cons, hdb, hpb, Bool.false_and, Bool.and_true]
        simp only [Bool.false_eq_true, if_false, if_true]
        rw [ih, List.filter_cons, hpb]
        simp
    · have hdb : (a.date == d) = false := by simp [hd]
      by_cases hp : a.person = p
      · have hpb : (a.person == p) = true := by simp [hp]
        simp only [List.filter_cons, hdb, hpb, Bool.true_and, Bool.and_false]
        simp only [Bool.false_eq_true, if_false]
        rw [ih]
      · have hpb : (a.person == p) = false := by simp [hp]
        simp only [List.filter_cons, hdb, hpb, Bool.false_and, Bool.and_false]
        simp only [Bool.false_eq_true, if_false]
        rw [ih]

theorem eligOk_elim {long_df : List Rec} {p br : String} (h : eligOk long_df p br = true) :
    ∃ r ∈ long_df, strTrim r.person = p
      ∧ (strTrim r.role = br ∨ normalize (strTrim r.role) = normalize br) := by
  unfold eligOk at h
  rw [Bool.or_eq_true] at h
  rcases h with h | h
  · have hmem : br ∈ eligRoles long_df p := by simpa using h
    unfold eligRoles at hmem
    rw [List.mem_map] at hmem
    obtain ⟨r, hr, hrole⟩ := hmem
    rw [List.mem_filter] at hr
    exact ⟨r, hr.1, eq_of_beq hr.2, Or.inl hrole⟩
  · rw [List.any_eq_true] at h
    obtain ⟨er, her, hbeq⟩ := h
    unfold eligRoles at her
    rw [List.mem_map] at her
    obtain ⟨r, hr, hrole⟩ := her
    rw [List.mem_filter] at hr
    exact ⟨r, hr.1, eq_of_beq hr.2, Or.inr (hrole ▸ eq_of_beq hbeq)⟩

theorem mem_insertStr {x y : String} : ∀ {l : List String}, x ∈ insertStr y l → x = y ∨ x ∈ l := by
  intro l
  induction l with
  | nil =>
    intro h
    simp [insertStr] at h
    exact Or.inl h
  | cons z zs ih =>
    intro h
    unfold insertStr at h
    by_cases hlt : strLtB z y = true
    · rw [if_pos hlt] at h
      rcases List.mem_cons.mp h with hz | h
      · exact Or.inr (hz ▸ List.mem_cons_self _ _)
      · rcases ih h with h | h
        · exact Or.inl h
        · exact Or.inr (List.mem_cons_of_mem _ h)
    · rw [if_neg hlt] at h
      rcases List.mem_cons.mp h with hz | h
      · exact Or.inl hz
      · exact Or.inr h

theorem mem_sortStr {x : String} : ∀ {l : List String}, x ∈ sortStr l → x ∈ l := by
  intro l
  induction l with
  | nil =>
    intro h
    simp [sortStr] at h
  | cons z zs ih =>
    intro h
    have : x ∈ insertStr z (sortStr zs) := h
    rcases mem_insertStr this with h' | h'
    · exact h' ▸ List.mem_cons_self _ _
    · exact List.mem_cons_of_mem _ (ih h')

theorem mem_dedupAux {α : Type} [BEq α] {x : α} :
    ∀ {seen l : List α}, x ∈ dedupAux seen l → x ∈ l := by
  intro seen l
  induction l generalizing seen with
  | nil =>
    intro h
    simp [dedupAux] at h
  | cons z zs ih =>
    intro h
    unfold dedupAux at h
    by_cases hz : seen.contains z = true
    · rw [if_pos hz] at h
      exact List.mem_cons_of_mem _ (ih h)
    · rw [if_neg hz] at h
      rcases List.mem_cons.mp h with h' | h'
      · exact h' ▸ List.mem_cons_self _ _
      · exact List.mem_cons_of_mem _ (ih h')

theorem mem_dedupL {α : Type} [BEq α] {x : α} {l : List α} (h : x ∈ dedupL l) : x ∈ l :=
  mem_dedupAux h

theorem expand_roles_to_slots_eq_flatMap (plan : List (String × Nat)) :
    expand_roles_to_slots plan = plan.flatMap (fun rn =>
      if rn.2 ≤ 0 then []
      else if rn.2 = 1 then [(rn.1, rn.1)]
      else (List.range rn.2).map (fun i => (rn.1 ++ (" #") ++ toString (i + 1), rn.1))) := by
  have key : ∀ (pl : List (String × Nat)) (acc : List (String × String)),
      pl.foldl (fun acc rn =>
        if rn.2 ≤ 0 then acc
        else if rn.2 = 1 then acc ++ [(rn.1, rn.1)]
        else acc ++ (List.range rn.2).map
          (fun i => (rn.1 ++ (" #") ++ toString (i + 1), rn.1))) acc
        = acc ++ pl.flatMap (fun rn =>
            if rn.2 ≤ 0 then []
            else if rn.2 = 1 then [(rn.1, rn.1)]
            else (List.range rn.2).map
              (fun i => (rn.1 ++ (" #") ++ toString (i + 1), rn.1))) := by
    intro pl
    induction pl with
    | nil =>
      intro acc
      simp
    | cons rn pl ih =>
      intro acc
      rw [List.foldl_cons, List.flatMap_cons]
      by_cases h0 : rn.2 ≤ 0
      · rw [if_pos h0, if_pos h0, ih]
        simp
      · rw [if_neg h0, if_neg h0]
        by_cases h1 : rn.2 = 1
        · rw [if_pos h1, if_pos h1, ih]
          simp
        · rw [if_neg h1, if_neg h1, ih]
          simp

  exact key plan []

/-! ### Claim theorems -/

/-- C1: for every run of the assignment engine over duplicate-free
    service dates, every person appears in at most one filled
    (slot, date) cell of the output grid on each date — no
    double-booking within a day. -/
theorem spec_c1_no_double_booking (long_df : List Rec) (avail : Avail)
    (dates : List Nat) (maxA : Nat) (hnd : dates.Nodup) (p : String) (d : Nat) :
    ((schedule_by_slots long_df avail dates maxA).1.filter
      (fun a => a.person == p && a.date == d)).length ≤ 1 := by
  obtain ⟨delta, h1, h2, h3, h4, h5⟩ := dates_foldl_spec long_df avail
      (sortStr ((eligKeys long_df).filter (fun q => (availKeys avail).contains q))) maxA
      (expand_roles_to_slots build_slot_plan) dates ⟨[], []⟩
  have hres : (schedule_by_slots long_df avail dates maxA).1
      = (List.foldl (dayStep long_df avail
          (sortStr ((eligKeys long_df).filter (fun q => (availKeys avail).contains q))) maxA
          (expand_roles_to_slots build_slot_plan)) ⟨[], []⟩ dates).assignments := rfl
  rw [hres, h1]
  dsimp only
  rw [List.nil_append, filter_person_and_date]
  exact h5 hnd d p

/-- C1 witness: a concrete duplicate-free two-date run satisfies the
    no-double-booking bound at a concrete person and date. -/
theorem spec_c1_witness :
    ([1, 2] : List Nat).Nodup
    ∧ ((schedule_by_slots annLong annAvail [1, 2] 2).1.filter
        (fun a => a.person == ("Ann") && a.date == 1)).length ≤ 1 :=
  ⟨by decide, spec_c1_no_double_booking annLong annAvail [1, 2] 2 (by decide) ("Ann") 1⟩

/-- C2: in every run, every person's total number of grid assignments
    is bounded by the `max_assignments_per_person` parameter (2 at the
    source's only call site), and the returned counter agrees with the
    grid.  The code has no extended-quota class and no special codes,
    so this uniform parameter is the effective quota of every person. -/
theorem spec_c2_quota_bound (long_df : List Rec) (avail : Avail) (dates : List Nat)
    (maxA : Nat) (p : String) :
    countPerson (schedule_by_slots long_df avail dates maxA).1 p ≤ maxA
      ∧ cntOf (schedule_by_slots long_df avail dates maxA).2 p
          = countPerson (schedule_by_slots long_df avail dates maxA).1 p := by
  obtain ⟨delta, h1, h2, h3, h4, h5⟩ := dates_foldl_spec long_df avail
      (sortStr ((eligKeys long_df).filter (fun q => (availKeys avail).contains q))) maxA
      (expand_roles_to_slots build_slot_plan) dates ⟨[], []⟩
  have hres1 : (schedule_by_slots long_df avail dates maxA).1
      = (List.foldl (dayStep long_df avail
          (sortStr ((eligKeys long_df).filter (fun q => (availKeys avail).contains q))) maxA
          (expand_roles_to_slots build_slot_plan)) ⟨[], []⟩ dates).assignments := rfl
  have hres2 : (schedule_by_slots long_df avail dates maxA).2
      = (List.foldl (dayStep long_df avail
          (sortStr ((eligKeys long_df).filter (fun q => (availKeys avail).contains q))) maxA
          (expand_roles_to_slots build_slot_plan)) ⟨[], []⟩ dates).cnt := rfl
  have hc := h3 p
  have hb := h4 p
  dsimp only at hc hb
  have hzero : cntOf [] p = 0 := rfl
  rw [hzero] at hc hb
  constructor
  · rw [hres1, h1]
    dsimp only
    rw [List.nil_append]
    have hmax : Nat.max 0 maxA = maxA := Nat.zero_max maxA
    rw [hmax] at hb
    omega
  · rw [hres1, hres2, h1]
    dsimp only
    rw [List.nil_append]
    omega

/-- C3: every filled cell of the grid names a person who is recorded
    available on that date and eligible (exact or normalized role-name
    match, against an eligibility record whose priority is at least 1)
    for the slot's underlying role. -/
theorem spec_c3_filled_implies_eligible_available (long_df : List Rec) (avail : Avail)
    (dates : List Nat) (maxA : Nat) (hpr : ∀ r ∈ long_df, 1 ≤ r.priority) :
    ∀ a ∈ (schedule_by_slots long_df avail dates maxA).1,
      availOf avail a.person a.date = true
      ∧ ∃ br, (a.slot, br) ∈ expand_roles_to_slots build_slot_plan
          ∧ ∃ r ∈ long_df, strTrim r.person = a.person ∧ 1 ≤ r.priority
              ∧ (strTrim r.role = br ∨ normalize (strTrim r.role) = normalize br) := by
  intro a ha
  obtain ⟨delta, h1, h2, h3, h4, h5⟩ := dates_foldl_spec long_df avail
      (sortStr ((eligKeys long_df).filter (fun q => (availKeys avail).contains q))) maxA
      (expand_roles_to_slots build_slot_plan) dates ⟨[], []⟩
  have hres : (schedule_by_slots long_df avail dates maxA).1
      = (List.foldl (dayStep long_df avail
          (sortStr ((eligKeys long_df).filter (fun q => (availKeys avail).contains q))) maxA
          (expand_roles_to_slots build_slot_plan)) ⟨[], []⟩ dates).assignments := rfl
  rw [hres, h1] at ha
  dsimp only at ha
  rw [List.nil_append] at ha
  obtain ⟨_, _, hav, br, hbr, helg⟩ := h2 a ha
  obtain ⟨r, hr, hperson, hrole⟩ := eligOk_elim helg
  exact ⟨hav, br, hbr, r, hr, hperson, hpr r hr, hrole⟩

/-- C3 witness: the source priority table of the concrete run has only
    positive priorities, and the concrete filled cell
    (Age 1 classroom #1, date 1, Ann) satisfies the invariant. -/
theorem spec_c3_witness :
    (∀ r ∈ annLong, 1 ≤ r.priority)
    ∧ (availOf annAvail ("Ann") 1 = true
        ∧ ∃ br, (("Age 1 classroom #1"), br) ∈ expand_roles_to_slots build_slot_plan
            ∧ ∃ r ∈ annLong, strTrim r.person = ("Ann") ∧ 1 ≤ r.priority
                ∧ (strTrim r.role = br ∨ normalize (strTrim r.role) = normalize br)) := by
  have h1 : dayStep annLong annAvail
      (sortStr ((eligKeys annLong).filter (fun p => (availKeys annAvail).contains p))) 2
      (expand_roles_to_slots build_slot_plan) ⟨[], []⟩ 1
      = ⟨[⟨("Age 1 classroom #1"), 1, ("Ann")⟩], [(("Ann"), 1)]⟩ := by decide
  have h2 : dayStep annLong annAvail
      (sortStr ((eligKeys annLong).filter (fun p => (availKeys annAvail).contains p))) 2
      (expand_roles_to_slots build_slot_plan)
      ⟨[⟨("Age 1 classroom #1"), 1, ("Ann")⟩], [(("Ann"), 1)]⟩ 2
      = ⟨[⟨("Age 1 classroom #1"), 1, ("Ann")⟩, ⟨("Age 1 classroom #1"), 2, ("Ann")⟩],
         [(("Ann"), 2)]⟩ := by decide
  have hrun : (schedule_by_slots annLong annAvail [1, 2] 2).1
      = [⟨("Age 1 classroom #1"), 1, ("Ann")⟩, ⟨("Age 1 classroom #1"), 2, ("Ann")⟩] := by
    unfold schedule_by_slots
    simp only [List.foldl]
    rw [h1, h2]
  have hmem : (⟨("Age 1 classroom #1"), 1, ("Ann")⟩ : Assign)
      ∈ (schedule_by_slots annLong annAvail [1, 2] 2).1 := by
    rw [hrun]
    exact List.mem_cons_self _ _
  exact ⟨by decide, spec_c3_filled_implies_eligible_available annLong annAvail [1, 2] 2
      (by decide) ⟨("Age 1 classroom #1"), 1, ("Ann")⟩ hmem⟩

/-- C4: at any (date, slot) cell whose candidate list is non-empty, the
    engine fills the cell with the stable-sort head: a candidate of
    minimal running count, and the first such candidate in candidate
    order (the `find?` equation), deterministically. -/
theorem spec_c4_least_used_selection (long_df : List Rec) (avail : Avail)
    (people : List String) (maxA d : Nat) (acc : SchedState × List String)
    (sl : String × String) (c : String) (rest : List String)
    (hc : candidates long_df avail (cntOf acc.1.cnt) maxA acc.2 people sl.2 d = c :: rest) :
    (slotStep long_df avail people maxA d acc sl).1.assignments
        = acc.1.assignments ++ [⟨sl.1, d, chooseMin (cntOf acc.1.cnt) c rest⟩]
    ∧ chooseMin (cntOf acc.1.cnt) c rest ∈ c :: rest
    ∧ (∀ y ∈ c :: rest,
        cntOf acc.1.cnt (chooseMin (cntOf acc.1.cnt) c rest) ≤ cntOf acc.1.cnt y)
    ∧ (c :: rest).find?
        (fun y => cntOf acc.1.cnt y == cntOf acc.1.cnt (chooseMin (cntOf acc.1.cnt) c rest))
        = some (chooseMin (cntOf acc.1.cnt) c rest) := by
  refine ⟨?_, chooseMin_mem _ rest c, chooseMin_le _ rest c, chooseMin_first _ rest c⟩
  rw [slotStep_of_cons hc]

/-- C4 witness: a concrete slot with candidate list [Ann] is filled
    with Ann, the unique (hence first) minimal-count candidate. -/
theorem spec_c4_witness :
    candidates annLong annAvail (cntOf []) 2 [] [("Ann")] ("Age 1 classroom") 1 = [("Ann")]
    ∧ ((slotStep annLong annAvail [("Ann")] 2 1 (⟨[], []⟩, [])
          (("Age 1 classroom #1"), ("Age 1 classroom"))).1.assignments
        = [] ++ [⟨("Age 1 classroom #1"), 1, chooseMin (cntOf []) ("Ann") []⟩]
      ∧ chooseMin (cntOf []) ("Ann") [] ∈ [("Ann")]
      ∧ (∀ y ∈ [("Ann")], cntOf [] (chooseMin (cntOf []) ("Ann") []) ≤ cntOf [] y)
      ∧ ([("Ann")] : List String).find?
          (fun y => cntOf [] y == cntOf [] (chooseMin (cntOf []) ("Ann") []))
          = some (chooseMin (cntOf []) ("Ann") [])) :=
  ⟨by decide, spec_c4_least_used_selection annLong annAvail [("Ann")] 2 1 (⟨[], []⟩, [])
      (("Age 1 classroom #1"), ("Age 1 classroom")) ("Ann") [] (by decide)⟩

/-- C5 (amended): the engine applies the single uniform cap
    `max_assignments_per_person` to every slot alike — there is no
    extended-quota slot class — so a person whose running count has
    reached the cap is excluded from the candidate set of every
    further slot. -/
theorem spec_c5_uniform_quota_no_extension (long_df : List Rec) (avail : Avail)
    (cnt : String → Nat) (maxA : Nat) (today people : List String) (br : String)
    (d : Nat) (p : String) (h : maxA ≤ cnt p) :
    p ∉ candidates long_df avail cnt maxA today people br d := by
  intro hm
  have hlt := (mem_candidates hm).2.1
  omega

/-- C5 witness: a person already holding 2 assignments is not a
    candidate for any slot under the call-site cap of 2. -/
theorem spec_c5_witness :
    2 ≤ cntOf [(("Ann"), 2)] ("Ann")
    ∧ ("Ann") ∉ candidates annLong annAvail (cntOf [(("Ann"), 2)]) 2 [] [("Ann")]
        ("Age 1 classroom") 3 :=
  ⟨by decide, spec_c5_uniform_quota_no_extension annLong annAvail (cntOf [(("Ann"), 2)]) 2 []
      [("Ann")] ("Age 1 classroom") 3 ("Ann") (by decide)⟩

/-- C5 counterexample: in a concrete run with the source's call-site
    cap of 2, Ann — available and eligible on all three dates — holds
    2 assignments after the first two dates, and no slot of the
    catalog (of any class) grants her a third: date 3 is left entirely
    empty.  No extended-quota-class slot exists that allows a third
    assignment. -/
theorem spec_c5_counterexample :
    countPerson (schedule_by_slots annLong annAvail [1, 2, 3] 2).1 ("Ann") = 2
    ∧ availOf annAvail ("Ann") 3 = true
    ∧ eligOk annLong ("Ann") ("Age 1 classroom") = true
    ∧ (schedule_by_slots annLong annAvail [1, 2, 3] 2).1.filter
        (fun a => a.date == 3) = [] := by
  have h1 : dayStep annLong annAvail
      (sortStr ((eligKeys annLong).filter (fun p => (availKeys annAvail).contains p))) 2
      (expand_roles_to_slots build_slot_plan) ⟨[], []⟩ 1
      = ⟨[⟨("Age 1 classroom #1"), 1, ("Ann")⟩], [(("Ann"), 1)]⟩ := by decide
  have h2 : dayStep annLong annAvail
      (sortStr ((eligKeys annLong).filter (fun p => (availKeys annAvail).contains p))) 2
      (expand_roles_to_slots build_slot_plan)
      ⟨[⟨("Age 1 classroom #1"), 1, ("Ann")⟩], [(("Ann"), 1)]⟩ 2
      = ⟨[⟨("Age 1 classroom #1"), 1, ("Ann")⟩, ⟨("Age 1 classroom #1"), 2, ("Ann")⟩],
         [(("Ann"), 2)]⟩ := by decide
  have h3 : dayStep annLong annAvail
      (sortStr ((eligKeys annLong).filter (fun p => (availKeys annAvail).contains p))) 2
      (expand_roles_to_slots build_slot_plan)
      ⟨[⟨("Age 1 classroom #1"), 1, ("Ann")⟩, ⟨("Age 1 classroom #1"), 2, ("Ann")⟩],
        [(("Ann"), 2)]⟩ 3
      = ⟨[⟨("Age 1 classroom #1"), 1, ("Ann")⟩, ⟨("Age 1 classroom #1"), 2, ("Ann")⟩],
         [(("Ann"), 2)]⟩ := by decide
  have hrun : schedule_by_slots annLong annAvail [1, 2, 3] 2
      = ([⟨("Age 1 classroom #1"), 1, ("Ann")⟩, ⟨("Age 1 classroom #1"), 2, ("Ann")⟩],
         [(("Ann"), 2)]) := by
    unfold schedule_by_slots
    simp only [List.foldl]
    rw [h1, h2, h3]
  rw [hrun]
  exact ⟨by decide, by decide, by decide, by decide⟩

/-- C7: the yes-count / fewer-than-2-yes roster is informational only:
    in a concrete run, Zoe — available on exactly one of three dates —
    appears in the roster produced by `parse_availability` and is
    nevertheless assigned by the engine on her single available date. -/
theorem spec_c7_low_availability_not_gating :
    (parse_availability zbRows zbDmap).2.2 = [("Zoe")]
    ∧ availOf (parse_availability zbRows zbDmap).1 ("Zoe") 1 = false
    ∧ availOf (parse_availability zbRows zbDmap).1 ("Zoe") 2 = true
    ∧ availOf (parse_availability zbRows zbDmap).1 ("Zoe") 3 = false
    ∧ ⟨("Age 1 classroom #1"), 2, ("Zoe")⟩
        ∈ (schedule_by_slots zbLong (parse_availability zbRows zbDmap).1
            (parse_availability zbRows zbDmap).2.1 2).1 := by
  have hpa : parse_availability zbRows zbDmap = (zbAvailI, ([1, 2, 3], [("Zoe")])) := by
    decide
  rw [hpa]
  have h1 : dayStep zbLong zbAvailI
      (sortStr ((eligKeys zbLong).filter (fun p => (availKeys zbAvailI).contains p))) 2
      (expand_roles_to_slots build_slot_plan) ⟨[], []⟩ 1
      = ⟨[⟨("Age 1 classroom #1"), 1, ("Ben")⟩], [(("Ben"), 1)]⟩ := by decide
  have h2 : dayStep zbLong zbAvailI
      (sortStr ((eligKeys zbLong).filter (fun p => (availKeys zbAvailI).contains p))) 2
      (expand_roles_to_slots build_slot_plan)
      ⟨[⟨("Age 1 classroom #1"), 1, ("Ben")⟩], [(("Ben"), 1)]⟩ 2
      = ⟨[⟨("Age 1 classroom #1"), 1, ("Ben")⟩, ⟨("Age 1 classroom #1"), 2, ("Zoe")⟩,
          ⟨("Age 1 classroom #2"), 2, ("Ben")⟩], [(("Ben"), 2), (("Zoe"), 1)]⟩ := by decide
  have h3 : dayStep zbLong zbAvailI
      (sortStr ((eligKeys zbLong).filter (fun p => (availKeys zbAvailI).contains p))) 2
      (expand_roles_to_slots build_slot_plan)
      ⟨[⟨("Age 1 classroom #1"), 1, ("Ben")⟩, ⟨("Age 1 classroom #1"), 2, ("Zoe")⟩,
         ⟨("Age 1 classroom #2"), 2, ("Ben")⟩], [(("Ben"), 2), (("Zoe"), 1)]⟩ 3
      = ⟨[⟨("Age 1 classroom #1"), 1, ("Ben")⟩, ⟨("Age 1 classroom #1"), 2, ("Zoe")⟩,
          ⟨("Age 1 classroom #2"), 2, ("Ben")⟩], [(("Ben"), 2), (("Zoe"), 1)]⟩ := by decide
  have hrun : (schedule_by_slots zbLong zbAvailI [1, 2, 3] 2).1
      = [⟨("Age 1 classroom #1"), 1, ("Ben")⟩, ⟨("Age 1 classroom #1"), 2, ("Zoe")⟩,
         ⟨("Age 1 classroom #2"), 2, ("Ben")⟩] := by
    unfold schedule_by_slots
    simp only [List.foldl]
    rw [h1, h2, h3]
  refine ⟨rfl, by decide, by decide, by decide, ?_⟩
  dsimp only
  rw [hrun]
  exact List.mem_cons_of_mem _ (List.mem_cons_self _ _)

/-- C8: slot expansion of a role table with counts at least 1 yields,
    in declaration order, exactly one slot named after a count-1 role
    and exactly N 1-based index-suffixed slots for a count-N role. -/
theorem spec_c8_slot_expansion (plan : List (String × Nat))
    (h : ∀ rn ∈ plan, 1 ≤ rn.2) :
    (expand_roles_to_slots plan).map Prod.fst
      = plan.flatMap (fun rn =>
          if rn.2 = 1 then [rn.1]
          else (List.range rn.2).map (fun i => rn.1 ++ (" #") ++ toString (i + 1))) := by
  rw [expand_roles_to_slots_eq_flatMap]
  induction plan with
  | nil => rfl
  | cons rn pl ih =>
    rw [List.flatMap_cons, List.flatMap_cons, List.map_append]
    have hrn := h rn (List.mem_cons_self _ _)
    congr 1
    · have h0 : ¬rn.2 ≤ 0 := by omega
      rw [if_neg h0]
      by_cases h1 : rn.2 = 1
      · rw [if_pos h1, if_pos h1]
        rfl
      · rw [if_neg h1, if_neg h1, List.map_map]
        rfl
    · exact ih (fun x hx => h x (List.mem_cons_of_mem _ hx))

/-- C8 witness: a two-role table (counts 1 and 3) expands to the slot
    labels A, B #1, B #2, B #3 in declaration order. -/
theorem spec_c8_witness :
    (∀ rn ∈ ([(("A"), 1), (("B"), 3)] : List (String × Nat)), 1 ≤ rn.2)
    ∧ (expand_roles_to_slots [(("A"), 1), (("B"), 3)]).map Prod.fst
        = ([(("A"), 1), (("B"), 3)] : List (String × Nat)).flatMap (fun rn =>
            if rn.2 = 1 then [rn.1]
            else (List.range rn.2).map (fun i => rn.1 ++ (" #") ++ toString (i + 1))) :=
  ⟨by decide, spec_c8_slot_expansion [(("A"), 1), (("B"), 3)] (by decide)⟩

/-- C9: each input-shape failure aborts the pipeline before scheduling
    with its own distinct error kind and message — no role columns, no
    parseable dates in the availability headers, several months in one
    upload — while an unfillable slot is not an error: a successful
    concrete run leaves the Age 1 leader cell empty and still returns
    a grid. -/
theorem spec_c9_input_shape_errors :
    runPipeline posNames posColsBad hdrGood [] 2025 = Except.error AppError.noRoleColumns
    ∧ runPipeline posNames posColsGood hdrNoDates [] 2025
        = Except.error AppError.noParseableDates
    ∧ runPipeline posNames posColsGood hdrTwoMonths [] 2025
        = Except.error (AppError.multipleMonths [9, 10])
    ∧ AppError.noRoleColumns ≠ AppError.noParseableDates
    ∧ AppError.noRoleColumns ≠ AppError.multipleMonths [9, 10]
    ∧ AppError.noParseableDates ≠ AppError.multipleMonths [9, 10]
    ∧ errMessage AppError.noRoleColumns ≠ errMessage AppError.noParseableDates
    ∧ errMessage AppError.noRoleColumns ≠ errMessage (AppError.multipleMonths [9, 10])
    ∧ errMessage AppError.noParseableDates ≠ errMessage (AppError.multipleMonths [9, 10])
    ∧ runPipeline posNames posColsGood hdrGood rowsGood 2025
        = Except.ok ([⟨("Age 1 classroom #1"), 20250907, ("Ann")⟩], [("Ann")])
    ∧ (runPipeline posNames posColsGood hdrGood rowsGood 2025).toOption.map
        (fun r => r.1.filter (fun a => a.slot == ("Age 1 leader"))) = some [] := by
  decide

/-- C10: every person named in a filled cell of any run is present in
    both input sources: they have an eligibility record in the long
    table and a row in the availability index. -/
theorem spec_c10_candidates_from_both_sources (long_df : List Rec) (avail : Avail)
    (dates : List Nat) (maxA : Nat) :
    ∀ a ∈ (schedule_by_slots long_df avail dates maxA).1,
      (∃ r ∈ long_df, strTrim r.person = a.person) ∧ a.person ∈ availKeys avail := by
  intro a ha
  obtain ⟨delta, h1, h2, h3, h4, h5⟩ := dates_foldl_spec long_df avail
      (sortStr ((eligKeys long_df).filter (fun q => (availKeys avail).contains q))) maxA
      (expand_roles_to_slots build_slot_plan) dates ⟨[], []⟩
  have hres : (schedule_by_slots long_df avail dates maxA).1
      = (List.foldl (dayStep long_df avail
          (sortStr ((eligKeys long_df).filter (fun q => (availKeys avail).contains q))) maxA
          (expand_roles_to_slots build_slot_plan)) ⟨[], []⟩ dates).assignments := rfl
  rw [hres, h1] at ha
  dsimp only at ha
  rw [List.nil_append] at ha
  have hap := (h2 a ha).2.1
  have hmem := mem_sortStr hap
  rw [List.mem_filter] at hmem
  have hek : a.person ∈ eligKeys long_df := hmem.1
  have hak : a.person ∈ availKeys avail := by
    have := hmem.2
    simpa using this
  have hmap := mem_dedupL hek
  rw [List.mem_map] at hmap
  obtain ⟨r, hr, hre⟩ := hmap
  exact ⟨⟨r, hr, hre⟩, hak⟩

/-- C10 witness: the concrete filled cell of a one-date run names a
    person present in both the eligibility table and the availability
    index. -/
theorem spec_c10_witness :
    (⟨("Age 1 classroom #1"), 1, ("Ann")⟩ : Assign)
        ∈ (schedule_by_slots annLong annAvail [1] 2).1
    ∧ ((∃ r ∈ annLong, strTrim r.person = ("Ann")) ∧ ("Ann") ∈ availKeys annAvail) := by
  have h1 : dayStep annLong annAvail
      (sortStr ((eligKeys annLong).filter (fun p => (availKeys annAvail).contains p))) 2
      (expand_roles_to_slots build_slot_plan) ⟨[], []⟩ 1
      = ⟨[⟨("Age 1 classroom #1"), 1, ("Ann")⟩], [(("Ann"), 1)]⟩ := by decide
  have hrun : (schedule_by_slots annLong annAvail [1] 2).1
      = [⟨("Age 1 classroom #1"), 1, ("Ann")⟩] := by
    unfold schedule_by_slots
    simp only [List.foldl]
    rw [h1]
  have hmem : (⟨("Age 1 classroom #1"), 1, ("Ann")⟩ : Assign)
      ∈ (schedule_by_slots annLong annAvail [1] 2).1 := by
    rw [hrun]
    exact List.mem_cons_self _ _
  exact ⟨hmem, spec_c10_candidates_from_both_sources annLong annAvail [1] 2 _ hmem⟩

end UKids
